import Mathlib

/-!
Verification development for the universal web scraper's job engine.

The Python sources are embedded shallowly:

* `src/utils/url_generator.py` — the range-discovery algorithm
  (`find_first_valid_month_code` / `find_last_valid_month_code` with their
  checkpoint, exponential, binary-search and linear-scan phases).  The
  existence probe for one manufacturer is abstracted as `valid : Int → Bool`;
  Python's `//` (floor division) coincides with Lean's `Int` division `/`
  (`Int.ediv`) on the divisor 2 used here.
* a probe-instrumented variant of the same algorithm that threads the
  `cache` set and a trace of external probe calls, with a probe oracle
  `probe : Int → Nat → Option Bool` (key, retry attempt; `none` = the HTTP
  request raised), mirroring the `tenacity` retry wrapper on
  `check_url_sync` (3 attempts, then the exception propagates).
* `src/db/supabase_client.py` / `src/api/jobs.py` — job and task records,
  `create_scrape_job`, `cancel_job`, `retry_failed_urls`, the status
  counting in `monitor_job_status` / `process_all` and the final status
  classification.
* `src/scraper/scraper.py` / `src/utils/validation.py` — the
  manufacturer-name correction applied in `extract_data_from_content`
  and the `validate_entry` check run by `process_url`.
* the `asyncio.Semaphore(5)` admission gate of `start_job`, as a labelled
  transition system.
-/

namespace UWS

/-! ## Pure embedding of `src/utils/url_generator.py`

The existence predicate for a fixed manufacturer is `valid : Int → Bool`.
The `cache` parameter threaded by the Python code only avoids repeated
probes of ids that were already found to exist; it never changes the
boolean a `check_month_sync` call yields, so it is erased here (the
instrumented embedding below keeps it and is proved to agree). -/

/-- Upper search limit `max_search = 100` fixed inside
`find_first_valid_month_code`. -/
def max_search : Int := 100

/-- Checkpoint ids probed by `find_first_valid_month_code`
(`common_points`, ordered from lowest to highest). -/
def common_points_first : List Int := [1, 10, 20, 30, 40, 50, 60, 70, 80, 86]

/-- Checkpoint ids probed by `find_last_valid_month_code`
(`sorted(common_points, reverse=True)`). -/
def common_points_last : List Int := [86, 80, 70, 60, 50, 40, 30, 20, 10, 1]

/-- While loop of `binary_search_first`: `first_valid` is the accumulator
(initialized to `right` by the wrapper below). -/
def binary_search_first_go (valid : Int → Bool) (left right first_valid : Int) : Int :=
  if h : left ≤ right then
    if valid ((left + right) / 2) then
      binary_search_first_go valid left ((left + right) / 2 - 1) ((left + right) / 2)
    else
      binary_search_first_go valid ((left + right) / 2 + 1) right first_valid
  else first_valid
termination_by (right + 1 - left).toNat
decreasing_by
  · omega
  · omega

/-- `binary_search_first(manufacturer_code, left, right, cache)`:
find the first valid month in a range (`first_valid` starts at `right`,
the known valid month). -/
def binary_search_first (valid : Int → Bool) (left right : Int) : Int :=
  binary_search_first_go valid left right right

/-- While loop of `binary_search_last`: `last_valid` is the accumulator
(initialized to `left` by the wrapper below). -/
def binary_search_last_go (valid : Int → Bool) (left right last_valid : Int) : Int :=
  if h : left ≤ right then
    if valid ((left + right) / 2) then
      binary_search_last_go valid ((left + right) / 2 + 1) right ((left + right) / 2)
    else
      binary_search_last_go valid left ((left + right) / 2 - 1) last_valid
  else last_valid
termination_by (right + 1 - left).toNat
decreasing_by
  · omega
  · omega

/-- `binary_search_last(manufacturer_code, left, right, cache)`:
find the last valid month in a range (`last_valid` starts at `left`,
the known valid month). -/
def binary_search_last (valid : Int → Bool) (left right : Int) : Int :=
  binary_search_last_go valid left right left

/-- Checkpoint loop of `find_first_valid_month_code`:
`for point in common_points: if min_month <= point <= max_search and
check_month_sync(...): return binary_search_first(min_month, point)`.
`none` means the loop fell through. -/
def find_first_common (valid : Int → Bool) (min_month : Int) : List Int → Option Int
  | [] => none
  | point :: rest =>
    if min_month ≤ point ∧ point ≤ max_search ∧ valid point then
      some (binary_search_first valid min_month point)
    else
      find_first_common valid min_month rest

/-- Exponential phase of `find_first_valid_month_code`; the doubling bound
is represented as `2 ^ k` (the Python loop starts with `bound = 1` and
executes `bound *= 2`).  After a failed probe the loop checks whether the
next step would reach `max_search`; if so it probes `max_search` itself and
otherwise breaks to the linear fallback (`none`). -/
def find_first_exponential (valid : Int → Bool) (current : Int) (k : Nat) : Option Int :=
  if h : current + 2 ^ k < max_search then
    if valid (current + 2 ^ k) then
      some (binary_search_first valid current (current + 2 ^ k))
    else if current + 2 ^ k + 2 ^ (k + 1) ≥ max_search then
      if valid max_search then
        some (binary_search_first valid (current + 2 ^ k) max_search)
      else none
    else
      find_first_exponential valid (current + 2 ^ k) (k + 1)
  else none
termination_by (max_search - current).toNat
decreasing_by
  have h2 : (0:Int) < 2 ^ k := by positivity
  simp only [max_search] at *
  omega

/-- Linear fallback of `find_first_valid_month_code`:
`for month in range(min_month, max_search)`, returning `-1` when the scan
is exhausted. -/
def find_first_linear (valid : Int → Bool) (month : Int) : Int :=
  if h : month < max_search then
    if valid month then month else find_first_linear valid (month + 1)
  else -1
termination_by (max_search - month).toNat
decreasing_by
  simp only [max_search] at *
  omega

/-- `find_first_valid_month_code(manufacturer_code, min_month)`: the month
argument is clamped by `min_month = max(1, min_month)`, then the immediate
check, the checkpoint loop, the exponential phase and the linear fallback
run in this order. -/
def find_first_valid_month_code (valid : Int → Bool) (min_month : Int) : Int :=
  if valid (max 1 min_month) then max 1 min_month
  else
    match find_first_common valid (max 1 min_month) common_points_first with
    | some r => r
    | none =>
      match find_first_exponential valid (max 1 min_month) 0 with
      | some r => r
      | none => find_first_linear valid (max 1 min_month)

/-- Checkpoint loop of `find_last_valid_month_code`:
`for point in sorted(common_points, reverse=True): if point <= max_month
and check_month_sync(...): return binary_search_last(point, max_month - 1)`. -/
def find_last_common (valid : Int → Bool) (max_month : Int) : List Int → Option Int
  | [] => none
  | point :: rest =>
    if point ≤ max_month ∧ valid point then
      some (binary_search_last valid point (max_month - 1))
    else
      find_last_common valid max_month rest

/-- Exponential phase of `find_last_valid_month_code` (mirror of
`find_first_exponential`, walking down from `max_month`); after a failed
probe the loop checks whether the next step would leave the positive ids,
probes month 1 in that case, and otherwise breaks to the linear fallback. -/
def find_last_exponential (valid : Int → Bool) (current : Int) (k : Nat) : Option Int :=
  if h : current - 2 ^ k > 0 then
    if valid (current - 2 ^ k) then
      some (binary_search_last valid (current - 2 ^ k) (current - 1))
    else if current - 2 ^ k - 2 ^ (k + 1) ≤ 0 then
      if valid 1 then
        some (binary_search_last valid 1 (current - 2 ^ k - 1))
      else none
    else
      find_last_exponential valid (current - 2 ^ k) (k + 1)
  else none
termination_by current.toNat
decreasing_by
  have h2 : (0:Int) < 2 ^ k := by positivity
  omega

/-- Linear fallback of `find_last_valid_month_code`:
`for month in range(max_month, 0, -1)`, returning `-1` when exhausted. -/
def find_last_linear (valid : Int → Bool) (month : Int) : Int :=
  if h : month > 0 then
    if valid month then month else find_last_linear valid (month - 1)
  else -1
termination_by month.toNat
decreasing_by
  omega

/-- `find_last_valid_month_code(manufacturer_code, max_month)`: immediate
check of `max_month`, then the checkpoint loop, the exponential phase and
the linear fallback. -/
def find_last_valid_month_code (valid : Int → Bool) (max_month : Int) : Int :=
  if valid max_month then max_month
  else
    match find_last_common valid max_month common_points_last with
    | some r => r
    | none =>
      match find_last_exponential valid max_month 0 with
      | some r => r
      | none => find_last_linear valid max_month

/-- Existence predicate that holds exactly on the contiguous interval
`[a, b]` of month ids. -/
def IntervalValid (a b : Int) : Int → Bool :=
  fun m => decide (a ≤ m ∧ m ≤ b)


/-! ## Embedding of the job store (`src/db/supabase_client.py`, `src/api/jobs.py`) -/

/-- Status of one `job_urls` row. -/
inductive UrlStatus
  | pending
  | inProgress
  | completed
  | failed
  | cancelled
deriving DecidableEq, Repr

/-- Status stored on a `scrape_jobs` row (`pending` is the status written
by `create_scrape_job`; the spec calls this state "queued").
`partialSuccess` renders the stored string "partial_success". -/
inductive JobStatusCode
  | pending
  | inProgress
  | completed
  | partialSuccess
  | failed
  | cancelled
deriving DecidableEq, Repr

/-- One `job_urls` row (the fields the claims are about). -/
structure JobUrl where
  id : Nat
  url : String
  status : UrlStatus
deriving DecidableEq, Repr

/-- One `scrape_jobs` row together with its `job_urls`. -/
structure ScrapeJob where
  job_name : String
  status : JobStatusCode
  total_urls : Nat
  completed_urls : Nat
  progress_percentage : Rat
  job_urls : List JobUrl
deriving DecidableEq, Repr

/-- `create_scrape_job(job_name, urls)`: inserts the job row with status
`'pending'`, `total_urls = len(urls)`, `completed_urls = 0`,
`progress_percentage = 0`, and one `'pending'` `job_urls` row per URL
(row ids are modelled by insertion position). -/
def create_scrape_job (job_name : String) (urls : List String) : ScrapeJob :=
  { job_name := job_name
    status := .pending
    total_urls := urls.length
    completed_urls := 0
    progress_percentage := 0
    job_urls := urls.enum.map fun p => { id := p.1, url := p.2, status := .pending } }

/-- Status count over a job's URL rows, as computed by the list
comprehensions `len([u for u in job['job_urls'] if u['status'] == ...])`
in `monitor_job_status`, `process_all` and `get_job_progress`. -/
def count_status (s : UrlStatus) (urls : List JobUrl) : Nat :=
  (urls.filter fun u => u.status == s).length

/-- Final job status computed by `process_all` and `monitor_job_status`:
`"completed" if url_stats['failed'] == 0 else "partial_success" if
url_stats['completed'] > 0 else "failed"`. -/
def final_status (urls : List JobUrl) : JobStatusCode :=
  if count_status .failed urls = 0 then .completed
  else if 0 < count_status .completed urls then .partialSuccess
  else .failed

/-- `cancel_job(job_id)`: refused (`success: False`) unless the job status
is `'in_progress'` or `'pending'`; otherwise the job row is set to
`'cancelled'` and every `'in_progress'` or `'pending'` URL row is flipped
to `'cancelled'`.  Returns the `success` flag of the JSON response and the
updated job. -/
def cancel_job (job : ScrapeJob) : Bool × ScrapeJob :=
  if job.status = .inProgress ∨ job.status = .pending then
    (true,
     { job with
         status := .cancelled
         job_urls := job.job_urls.map fun u =>
           if u.status = .inProgress ∨ u.status = .pending then
             { u with status := .cancelled }
           else u })
  else (false, job)

/-- Effect of `retry_failed_urls(job_id)` on the URL rows: each row whose
status is `'failed'` is re-processed (`'completed'` when the new scrape
succeeds — decided by the oracle `succeeds` on the row id — `'failed'`
otherwise, including the exception path); no other row is written. -/
def retry_failed_urls (succeeds : Nat → Bool) (urls : List JobUrl) : List JobUrl :=
  urls.map fun u =>
    if u.status = .failed then
      { u with status := if succeeds u.id then .completed else .failed }
    else u

/-- `update_job_progress(job_id, total_urls, completed_urls)`: the stored
`progress_percentage` is `completed_urls / total_urls * 100` when
`total_urls > 0` and `0` otherwise. -/
def update_job_progress (total_urls completed_urls : Nat) : Rat :=
  if 0 < total_urls then (completed_urls : Rat) / (total_urls : Rat) * 100 else 0

/-- Percentage stored by each round of `monitor_job_status`, which calls
`update_job_progress` with `total_urls = url_stats['total']` and
`completed_urls = url_stats['completed'] + url_stats['failed']`. -/
def monitor_progress_percentage (urls : List JobUrl) : Rat :=
  update_job_progress urls.length
    (count_status .completed urls + count_status .failed urls)


/-! ## Embedding of the extraction validation
(`src/scraper/scraper.py`, `src/utils/validation.py`,
`src/scraper/async_scraper.py`).  The `manufacturer_code.csv` table is the
function `lookup : Int → Option String` (`none` = code absent). -/

/-- Extracted manufacturer record (the fields the validation touches). -/
structure ManufacturerEntry where
  manufacturer_name : String
  reference : Option String
deriving DecidableEq, Repr

/-- `get_manufacturer_name(code)` from `src/scraper/scraper.py`:
`names.get(code, "Unknown")`. -/
def get_manufacturer_name (lookup : Int → Option String) (code : Int) : String :=
  (lookup code).getD "Unknown"

/-- Python's `str.split(sep)` for a one-character separator, over the
character list of the string: an empty input yields `[[]]` and adjacent
separators yield empty pieces, as in Python.  `acc` holds the current piece
reversed. -/
def split_char (sep : Char) : List Char → List Char → List (List Char)
  | [], acc => [acc.reverse]
  | c :: cs, acc =>
    if c = sep then acc.reverse :: split_char sep cs []
    else split_char sep cs (c :: acc)

/-- Python's `int(s)` on the all-digit tokens appearing in the scraped
URLs (`none` models `int()` raising `ValueError`). -/
def chars_to_int (s : List Char) : Option Int :=
  if s ≠ [] ∧ s.all Char.isDigit then
    some (s.foldl (fun acc c => acc * 10 + ((c.toNat : Int) - 48)) 0)
  else none

/-- Manufacturer-code parse used by `extract_data_from_content`:
`int(url.split('_')[0].split('/')[-1])`. -/
def mfr_code_scraper (url : String) : Option Int :=
  chars_to_int
    ((split_char '/' ((split_char '_' url.data []).headD []) []).getLastD [])

/-- Manufacturer-code parse used by `validate_entry`:
`int(url.split('/')[-1].split('_')[0])`. -/
def mfr_code_validation (url : String) : Option Int :=
  chars_to_int
    ((split_char '_' ((split_char '/' url.data []).getLastD []) []).headD [])

/-- Per-record fixup in `extract_data_from_content`: the reference URL is
attached and `manufacturer_name` is overridden with
`get_manufacturer_name(mfr_code)` whenever the two differ. -/
def correct_manufacturer_entry (lookup : Int → Option String) (code : Int)
    (url : String) (entry : ManufacturerEntry) : ManufacturerEntry :=
  if entry.manufacturer_name ≠ get_manufacturer_name lookup code then
    { manufacturer_name := get_manufacturer_name lookup code, reference := some url }
  else
    { entry with reference := some url }

/-- `validate_entry(entry, url)` from `src/utils/validation.py`: the code
parsed from the URL is looked up; the check only fires when
`expected_name` is truthy (present and non-empty) and differs from the
entry's `manufacturer_name`. -/
def validate_entry (lookup : Int → Option String) (entry : ManufacturerEntry)
    (url : String) : Option Bool :=
  match mfr_code_validation url with
  | none => none
  | some code =>
    match lookup code with
    | none => some true
    | some expected =>
      if expected ≠ "" ∧ entry.manufacturer_name ≠ expected then some false
      else some true

/-- Validation path of `process_url` for a task whose extraction succeeded:
the extracted record passes through `extract_data_from_content`'s name
fixup, then `validate_entry`; `some e` means the record `e` is persisted,
`none` that the task is recorded failed (validation failure or a raised
parse error). -/
def process_extracted_entry (lookup : Int → Option String) (url : String)
    (entry : ManufacturerEntry) : Option ManufacturerEntry :=
  match mfr_code_scraper url with
  | none => none
  | some code =>
    match validate_entry lookup (correct_manufacturer_entry lookup code url entry) url with
    | none => none
    | some true => some (correct_manufacturer_entry lookup code url entry)
    | some false => none

/-! ## The `asyncio.Semaphore(5)` admission gate of `start_job`
(`src/api/jobs.py`), as a labelled transition system over the counts of
URL tasks outside and inside the `async with semaphore` block. -/

/-- `MAX_CONCURRENT = 5` from `start_job`. -/
def MAX_CONCURRENT : Nat := 5

/-- Scheduler state: `available` is the semaphore counter, `running` the
tasks currently inside the `async with semaphore` block (the whole
fetch / extract / persist body of `process_single_url` runs there),
`pending` the created-but-not-admitted tasks, `done` the finished ones. -/
structure SchedState where
  available : Nat
  running : Nat
  pending : Nat
  done : Nat
deriving DecidableEq, Repr

/-- Initial state for a job with `n` pending URLs. -/
def init_sched (n : Nat) : SchedState :=
  { available := MAX_CONCURRENT, running := 0, pending := n, done := 0 }

/-- Interleaving steps: a pending task is admitted only when the semaphore
counter is positive (`acquire`), and a running task finishing releases the
counter. -/
inductive SchedStep : SchedState → SchedState → Prop
  | acquire (s : SchedState) : 0 < s.pending → 0 < s.available →
      SchedStep s
        { available := s.available - 1, running := s.running + 1,
          pending := s.pending - 1, done := s.done }
  | finish (s : SchedState) : 0 < s.running →
      SchedStep s
        { available := s.available + 1, running := s.running - 1,
          pending := s.pending, done := s.done + 1 }

/-- States reachable during one job's execution. -/
def SchedReachable (n : Nat) (s : SchedState) : Prop :=
  Relation.ReflTransGen SchedStep (init_sched n) s


/-- Lookup table with no entries, for the C8 counterexample. -/
def no_lookup : Int → Option String := fun _ => none

/-! ## Instrumented embedding of `url_generator.py`

The same algorithm with the `cache` set and the external GET requests made
explicit.  The probe oracle `probe m i` is the outcome of the `i`-th
tenacity attempt of a GET for month id `m`: `some b` — the request
completed and `b` says whether the status was 200 — `none` — the request
raised.  `Except.error ()` is an uncaught Python exception
(`tenacity.RetryError` after three raising attempts). -/

/-- Probing state: `cache` holds the month ids whose URL was confirmed to
exist (`check_url_sync` adds a URL only after a 200 response), `trace`
records every external GET attempt in order. -/
structure ProbeState where
  cache : List Int
  trace : List Int
deriving DecidableEq, Repr

/-- Fresh state (`cache = set()` at the top of each finder). -/
def init_probe_state : ProbeState := ⟨[], []⟩

/-- `check_month_sync` → `check_url_sync` under
`@retry(wait=wait_exponential(...), stop=stop_after_attempt(3))`: a cached
URL short-circuits to `True` with no request; otherwise up to three GET
attempts are made, a completed attempt returns its answer (caching the id
on 200), and three raising attempts make the tenacity wrapper raise. -/
def check_month_sync_run (probe : Int → Nat → Option Bool) (m : Int)
    (s : ProbeState) : Except Unit (Bool × ProbeState) :=
  if m ∈ s.cache then .ok (true, s)
  else
    match probe m 0 with
    | some b => .ok (b, ⟨if b then m :: s.cache else s.cache, s.trace ++ [m]⟩)
    | none =>
      match probe m 1 with
      | some b => .ok (b, ⟨if b then m :: s.cache else s.cache, s.trace ++ [m, m]⟩)
      | none =>
        match probe m 2 with
        | some b =>
          .ok (b, ⟨if b then m :: s.cache else s.cache, s.trace ++ [m, m, m]⟩)
        | none => .error ()

/-- Instrumented `binary_search_first` loop. -/
def binary_search_first_go_run (probe : Int → Nat → Option Bool)
    (left right first_valid : Int) (s : ProbeState) :
    Except Unit (Int × ProbeState) :=
  if h : left ≤ right then
    match check_month_sync_run probe ((left + right) / 2) s with
    | .error e => .error e
    | .ok (b, s1) =>
      if b then
        binary_search_first_go_run probe left ((left + right) / 2 - 1)
          ((left + right) / 2) s1
      else
        binary_search_first_go_run probe ((left + right) / 2 + 1) right first_valid s1
  else .ok (first_valid, s)
termination_by (right + 1 - left).toNat
decreasing_by
  · omega
  · omega

/-- Instrumented `binary_search_first`. -/
def binary_search_first_run (probe : Int → Nat → Option Bool)
    (left right : Int) (s : ProbeState) : Except Unit (Int × ProbeState) :=
  binary_search_first_go_run probe left right right s

/-- Instrumented `binary_search_last` loop. -/
def binary_search_last_go_run (probe : Int → Nat → Option Bool)
    (left right last_valid : Int) (s : ProbeState) :
    Except Unit (Int × ProbeState) :=
  if h : left ≤ right then
    match check_month_sync_run probe ((left + right) / 2) s with
    | .error e => .error e
    | .ok (b, s1) =>
      if b then
        binary_search_last_go_run probe ((left + right) / 2 + 1) right
          ((left + right) / 2) s1
      else
        binary_search_last_go_run probe left ((left + right) / 2 - 1) last_valid s1
  else .ok (last_valid, s)
termination_by (right + 1 - left).toNat
decreasing_by
  · omega
  · omega

/-- Instrumented `binary_search_last`. -/
def binary_search_last_run (probe : Int → Nat → Option Bool)
    (left right : Int) (s : ProbeState) : Except Unit (Int × ProbeState) :=
  binary_search_last_go_run probe left right left s

/-- Instrumented checkpoint loop of `find_first_valid_month_code`
(the Python `and` probes only after the bound test passed). -/
def find_first_common_run (probe : Int → Nat → Option Bool) (min_month : Int) :
    List Int → ProbeState → Except Unit (Option Int × ProbeState)
  | [], s => .ok (none, s)
  | point :: rest, s =>
    if min_month ≤ point ∧ point ≤ max_search then
      match check_month_sync_run probe point s with
      | .error e => .error e
      | .ok (true, s1) =>
        match binary_search_first_run probe min_month point s1 with
        | .error e => .error e
        | .ok (r, s2) => .ok (some r, s2)
      | .ok (false, s1) => find_first_common_run probe min_month rest s1
    else find_first_common_run probe min_month rest s

/-- Instrumented exponential phase of `find_first_valid_month_code`. -/
def find_first_exponential_run (probe : Int → Nat → Option Bool)
    (current : Int) (k : Nat) (s : ProbeState) :
    Except Unit (Option Int × ProbeState) :=
  if h : current + 2 ^ k < max_search then
    match check_month_sync_run probe (current + 2 ^ k) s with
    | .error e => .error e
    | .ok (true, s1) =>
      match binary_search_first_run probe current (current + 2 ^ k) s1 with
      | .error e => .error e
      | .ok (r, s2) => .ok (some r, s2)
    | .ok (false, s1) =>
      if current + 2 ^ k + 2 ^ (k + 1) ≥ max_search then
        match check_month_sync_run probe max_search s1 with
        | .error e => .error e
        | .ok (true, s2) =>
          match binary_search_first_run probe (current + 2 ^ k) max_search s2 with
          | .error e => .error e
          | .ok (r, s3) => .ok (some r, s3)
        | .ok (false, s2) => .ok (none, s2)
      else find_first_exponential_run probe (current + 2 ^ k) (k + 1) s1
  else .ok (none, s)
termination_by (max_search - current).toNat
decreasing_by
  have h2 : (0:Int) < 2 ^ k := by positivity
  simp only [max_search] at *
  omega

/-- Instrumented linear fallback of `find_first_valid_month_code`. -/
def find_first_linear_run (probe : Int → Nat → Option Bool) (month : Int)
    (s : ProbeState) : Except Unit (Int × ProbeState) :=
  if h : month < max_search then
    match check_month_sync_run probe month s with
    | .error e => .error e
    | .ok (true, s1) => .ok (month, s1)
    | .ok (false, s1) => find_first_linear_run probe (month + 1) s1
  else .ok (-1, s)
termination_by (max_search - month).toNat
decreasing_by
  simp only [max_search] at *
  omega

/-- Instrumented `find_first_valid_month_code` (starts from the fresh
`cache = set()`). -/
def find_first_valid_month_code_run (probe : Int → Nat → Option Bool)
    (min_month : Int) : Except Unit (Int × ProbeState) :=
  match check_month_sync_run probe (max 1 min_month) init_probe_state with
  | .error e => .error e
  | .ok (true, s1) => .ok (max 1 min_month, s1)
  | .ok (false, s1) =>
    match find_first_common_run probe (max 1 min_month) common_points_first s1 with
    | .error e => .error e
    | .ok (some r, s2) => .ok (r, s2)
    | .ok (none, s2) =>
      match find_first_exponential_run probe (max 1 min_month) 0 s2 with
      | .error e => .error e
      | .ok (some r, s3) => .ok (r, s3)
      | .ok (none, s3) => find_first_linear_run probe (max 1 min_month) s3

/-- Instrumented checkpoint loop of `find_last_valid_month_code`. -/
def find_last_common_run (probe : Int → Nat → Option Bool) (max_month : Int) :
    List Int → ProbeState → Except Unit (Option Int × ProbeState)
  | [], s => .ok (none, s)
  | point :: rest, s =>
    if point ≤ max_month then
      match check_month_sync_run probe point s with
      | .error e => .error e
      | .ok (true, s1) =>
        match binary_search_last_run probe point (max_month - 1) s1 with
        | .error e => .error e
        | .ok (r, s2) => .ok (some r, s2)
      | .ok (false, s1) => find_last_common_run probe max_month rest s1
    else find_last_common_run probe max_month rest s

/-- Instrumented exponential phase of `find_last_valid_month_code`. -/
def find_last_exponential_run (probe : Int → Nat → Option Bool)
    (current : Int) (k : Nat) (s : ProbeState) :
    Except Unit (Option Int × ProbeState) :=
  if h : current - 2 ^ k > 0 then
    match check_month_sync_run probe (current - 2 ^ k) s with
    | .error e => .error e
    | .ok (true, s1) =>
      match binary_search_last_run probe (current - 2 ^ k) (current - 1) s1 with
      | .error e => .error e
      | .ok (r, s2) => .ok (some r, s2)
    | .ok (false, s1) =>
      if current - 2 ^ k - 2 ^ (k + 1) ≤ 0 then
        match check_month_sync_run probe 1 s1 with
        | .error e => .error e
        | .ok (true, s2) =>
          match binary_search_last_run probe 1 (current - 2 ^ k - 1) s2 with
          | .error e => .error e
          | .ok (r, s3) => .ok (some r, s3)
        | .ok (false, s2) => .ok (none, s2)
      else find_last_exponential_run probe (current - 2 ^ k) (k + 1) s1
  else .ok (none, s)
termination_by current.toNat
decreasing_by
  have h2 : (0:Int) < 2 ^ k := by positivity
  omega

/-- Instrumented linear fallback of `find_last_valid_month_code`. -/
def find_last_linear_run (probe : Int → Nat → Option Bool) (month : Int)
    (s : ProbeState) : Except Unit (Int × ProbeState) :=
  if h : month > 0 then
    match check_month_sync_run probe month s with
    | .error e => .error e
    | .ok (true, s1) => .ok (month, s1)
    | .ok (false, s1) => find_last_linear_run probe (month - 1) s1
  else .ok (-1, s)
termination_by month.toNat
decreasing_by
  omega

/-- Instrumented `find_last_valid_month_code`. -/
def find_last_valid_month_code_run (probe : Int → Nat → Option Bool)
    (max_month : Int) : Except Unit (Int × ProbeState) :=
  match check_month_sync_run probe max_month init_probe_state with
  | .error e => .error e
  | .ok (true, s1) => .ok (max_month, s1)
  | .ok (false, s1) =>
    match find_last_common_run probe max_month common_points_last s1 with
    | .error e => .error e
    | .ok (some r, s2) => .ok (r, s2)
    | .ok (none, s2) =>
      match find_last_exponential_run probe max_month 0 s2 with
      | .error e => .error e
      | .ok (some r, s3) => .ok (r, s3)
      | .ok (none, s3) => find_last_linear_run probe max_month s3

/-- Deterministic, never-raising probe induced by an existence predicate. -/
def pure_probe (valid : Int → Bool) : Int → Nat → Option Bool :=
  fun m _ => some (valid m)

/-- Trace of a finished run (irrelevant junk on the error path). -/
def run_trace (x : Except Unit (Int × ProbeState)) : List Int :=
  match x with
  | .ok (_, s) => s.trace
  | .error _ => []

/-- Invariant of the probing state under an error-free deterministic
probe: the cache only holds existing ids, an existing id that was probed
is cached, and an existing id is probed externally at most once. -/
def ProbeInv (valid : Int → Bool) (s : ProbeState) : Prop :=
  (∀ k ∈ s.cache, valid k = true) ∧
  (∀ k : Int, valid k = true → k ∈ s.trace → k ∈ s.cache) ∧
  (∀ k : Int, valid k = true → s.trace.count k ≤ 1)


/-! ## Theorems -/

theorem binary_search_first_go_all_invalid (valid : Int → Bool) :
    ∀ (n : Nat) (left right fv : Int), (right + 1 - left).toNat ≤ n →
      (∀ m : Int, left ≤ m → m ≤ right → valid m = false) →
      binary_search_first_go valid left right fv = fv := by
  intro n
  induction n with
  | zero =>
    intro l r fv hn h
    rw [binary_search_first_go, dif_neg (by omega)]
  | succ n ih =>
    intro l r fv hn h
    rw [binary_search_first_go]
    by_cases hlr : l ≤ r
    · rw [dif_pos hlr]
      have hm1 : l ≤ (l + r) / 2 := by omega
      have hm2 : (l + r) / 2 ≤ r := by omega
      rw [if_neg (by simp [h _ hm1 hm2])]
      exact ih _ _ _ (by omega) (fun m hma hmb => h m (by omega) hmb)
    · rw [dif_neg hlr]

theorem binary_search_first_go_finds (valid : Int → Bool) (a : Int) :
    ∀ (n : Nat) (left right fv : Int), (right + 1 - left).toNat ≤ n →
      (∀ m : Int, left ≤ m → m ≤ right → (valid m = true ↔ a ≤ m)) →
      left ≤ a → a ≤ right →
      binary_search_first_go valid left right fv = a := by
  intro n
  induction n with
  | zero =>
    intro l r fv hn h ha1 ha2
    omega
  | succ n ih =>
    intro l r fv hn h ha1 ha2
    have hlr : l ≤ r := le_trans ha1 ha2
    rw [binary_search_first_go, dif_pos hlr]
    have hm1 : l ≤ (l + r) / 2 := by omega
    have hm2 : (l + r) / 2 ≤ r := by omega
    by_cases hva : a ≤ (l + r) / 2
    · rw [if_pos ((h _ hm1 hm2).mpr hva)]
      by_cases hcase : a ≤ (l + r) / 2 - 1
      · exact ih l ((l + r) / 2 - 1) _ (by omega)
          (fun m hma hmb => h m hma (by omega)) ha1 hcase
      · have hmida : (l + r) / 2 = a := by omega
        rw [binary_search_first_go_all_invalid valid ((a - 1) + 1 - l).toNat l ((l + r) / 2 - 1) _
          (by omega)
          (fun m hma hmb => by
            have hiff := h m hma (by omega)
            cases hb : valid m with
            | false => rfl
            | true => exact absurd (hiff.mp hb) (by omega))]
        exact hmida
    · have hvm : valid ((l + r) / 2) = false := by
        have := h _ hm1 hm2
        cases hb : valid ((l + r) / 2) with
        | true => exact absurd (this.mp hb) hva
        | false => rfl
      rw [if_neg (by simp [hvm])]
      exact ih ((l + r) / 2 + 1) r fv (by omega)
        (fun m hma hmb => h m (by omega) hmb) (by omega) ha2


theorem binary_search_last_go_all_invalid (valid : Int → Bool) :
    ∀ (n : Nat) (left right lv : Int), (right + 1 - left).toNat ≤ n →
      (∀ m : Int, left ≤ m → m ≤ right → valid m = false) →
      binary_search_last_go valid left right lv = lv := by
  intro n
  induction n with
  | zero =>
    intro l r lv hn h
    rw [binary_search_last_go, dif_neg (by omega)]
  | succ n ih =>
    intro l r lv hn h
    rw [binary_search_last_go]
    by_cases hlr : l ≤ r
    · rw [dif_pos hlr]
      have hm1 : l ≤ (l + r) / 2 := by omega
      have hm2 : (l + r) / 2 ≤ r := by omega
      rw [if_neg (by simp [h _ hm1 hm2])]
      exact ih _ _ _ (by omega) (fun m hma hmb => h m hma (by omega))
    · rw [dif_neg hlr]

theorem binary_search_last_go_finds (valid : Int → Bool) (b : Int) :
    ∀ (n : Nat) (left right lv : Int), (right + 1 - left).toNat ≤ n →
      (∀ m : Int, left ≤ m → m ≤ right → (valid m = true ↔ m ≤ b)) →
      left ≤ b → b ≤ right →
      binary_search_last_go valid left right lv = b := by
  intro n
  induction n with
  | zero =>
    intro l r lv hn h hb1 hb2
    omega
  | succ n ih =>
    intro l r lv hn h hb1 hb2
    have hlr : l ≤ r := le_trans hb1 hb2
    rw [binary_search_last_go, dif_pos hlr]
    have hm1 : l ≤ (l + r) / 2 := by omega
    have hm2 : (l + r) / 2 ≤ r := by omega
    by_cases hvb : (l + r) / 2 ≤ b
    · rw [if_pos ((h _ hm1 hm2).mpr hvb)]
      by_cases hcase : (l + r) / 2 + 1 ≤ b
      · exact ih ((l + r) / 2 + 1) r _ (by omega)
          (fun m hma hmb => h m (by omega) hmb) hcase hb2
      · have hmidb : (l + r) / 2 = b := by omega
        rw [binary_search_last_go_all_invalid valid (r + 1 - ((l + r) / 2 + 1)).toNat
          ((l + r) / 2 + 1) r _ (by omega)
          (fun m hma hmb => by
            have hiff := h m (by omega) hmb
            cases hb : valid m with
            | false => rfl
            | true => exact absurd (hiff.mp hb) (by omega))]
        exact hmidb
    · have hvm : valid ((l + r) / 2) = false := by
        have hiff := h _ hm1 hm2
        cases hb : valid ((l + r) / 2) with
        | false => rfl
        | true => exact absurd (hiff.mp hb) hvb
      rw [if_neg (by simp [hvm])]
      exact ih l ((l + r) / 2 - 1) lv (by omega)
        (fun m hma hmb => h m hma (by omega)) hb1 (by omega)


theorem interval_valid_false {valid : Int → Bool} {a b : Int}
    (hvalid : ∀ m : Int, valid m = true ↔ (a ≤ m ∧ m ≤ b)) (m : Int) :
    valid m = false ↔ (m < a ∨ b < m) := by
  rw [← Bool.not_eq_true, hvalid m]
  omega

theorem find_first_common_finds {valid : Int → Bool} {a b mn : Int}
    (hvalid : ∀ m : Int, valid m = true ↔ (a ≤ m ∧ m ≤ b))
    (hmn : mn < a) :
    ∀ (ps : List Int) (r : Int), find_first_common valid mn ps = some r → r = a := by
  intro ps
  induction ps with
  | nil => intro r hr; exact Option.noConfusion hr
  | cons p rest ih =>
    intro r hr
    rw [find_first_common] at hr
    by_cases hcond : mn ≤ p ∧ p ≤ max_search ∧ valid p = true
    · rw [if_pos hcond] at hr
      have hp := (hvalid p).mp hcond.2.2
      have heq := binary_search_first_go_finds valid a (p + 1 - mn).toNat mn p p le_rfl
        (fun m hma hmb => by rw [hvalid m]; omega)
        (by omega) (by omega)
      simp only [binary_search_first] at hr
      rw [heq] at hr
      injection hr with h
      rw [← h]
    · rw [if_neg hcond] at hr
      exact ih r hr

theorem find_first_exponential_finds {valid : Int → Bool} {a b : Int}
    (hvalid : ∀ m : Int, valid m = true ↔ (a ≤ m ∧ m ≤ b)) (hb : b ≤ 99) :
    ∀ (n : Nat) (current : Int) (k : Nat) (r : Int), (max_search - current).toNat ≤ n →
      (current < a ∨ b < current) →
      find_first_exponential valid current k = some r → r = a := by
  intro n
  induction n with
  | zero =>
    intro cur k r hn hcur hr
    have h2 : (0:Int) < 2 ^ k := by positivity
    rw [find_first_exponential, dif_neg (by omega)] at hr
    exact Option.noConfusion hr
  | succ n ih =>
    intro cur k r hn hcur hr
    have h2 : (0:Int) < 2 ^ k := by positivity
    rw [find_first_exponential] at hr
    by_cases hg : cur + 2 ^ k < max_search
    · rw [dif_pos hg] at hr
      by_cases hv : valid (cur + 2 ^ k) = true
      · rw [if_pos hv] at hr
        have hp := (hvalid _).mp hv
        have hcura : cur < a := by
          rcases hcur with h | h
          · exact h
          · exfalso; omega
        have heq := binary_search_first_go_finds valid a
          ((cur + 2 ^ k) + 1 - cur).toNat cur (cur + 2 ^ k) (cur + 2 ^ k) le_rfl
          (fun m hma hmb => by rw [hvalid m]; omega)
          (by omega) (by omega)
        simp only [binary_search_first] at hr
        rw [heq] at hr
        injection hr with h
        rw [← h]
      · rw [if_neg hv] at hr
        by_cases hbreak : cur + 2 ^ k + 2 ^ (k + 1) ≥ max_search
        · rw [if_pos hbreak] at hr
          have hv100 : ¬ (valid max_search = true) := by
            rw [hvalid]
            simp only [max_search]
            omega
          rw [if_neg hv100] at hr
          exact Option.noConfusion hr
        · rw [if_neg hbreak] at hr
          rw [hvalid] at hv
          exact ih (cur + 2 ^ k) (k + 1) r (by omega) (by omega) hr
    · rw [dif_neg hg] at hr
      exact Option.noConfusion hr

theorem find_first_linear_finds {valid : Int → Bool} {a b : Int}
    (hvalid : ∀ m : Int, valid m = true ↔ (a ≤ m ∧ m ≤ b)) (hab : a ≤ b)
    (ha99 : a < max_search) :
    ∀ (n : Nat) (m : Int), (a - m).toNat ≤ n → m ≤ a →
      find_first_linear valid m = a := by
  intro n
  induction n with
  | zero =>
    intro m hn hma
    have hmeq : m = a := by omega
    subst hmeq
    rw [find_first_linear, dif_pos ha99, if_pos ((hvalid m).mpr ⟨le_rfl, hab⟩)]
  | succ n ih =>
    intro m hn hma
    by_cases hmeq : m = a
    · subst hmeq
      rw [find_first_linear, dif_pos ha99, if_pos ((hvalid m).mpr ⟨le_rfl, hab⟩)]
    · have hma' : m < a := by omega
      rw [find_first_linear, dif_pos (by omega), if_neg (by rw [hvalid]; omega)]
      exact ih (m + 1) (by omega) (by omega)

theorem find_first_interval {valid : Int → Bool} {a b mn : Int}
    (hvalid : ∀ m : Int, valid m = true ↔ (a ≤ m ∧ m ≤ b))
    (ha1 : 1 ≤ a) (hab : a ≤ b) (hb : b ≤ 99) (hmn1 : 1 ≤ mn) (hmna : mn ≤ a) :
    find_first_valid_month_code valid mn = a := by
  have hmax : max 1 mn = mn := max_eq_right hmn1
  rw [find_first_valid_month_code, hmax]
  by_cases hveq : valid mn = true
  · have h1 := (hvalid mn).mp hveq
    rw [if_pos hveq]
    omega
  · rw [if_neg hveq]
    have hmna' : mn < a := by
      rw [hvalid] at hveq; omega
    cases hc : find_first_common valid mn common_points_first with
    | some r =>
      exact find_first_common_finds hvalid hmna' _ r hc
    | none =>
      cases he : find_first_exponential valid mn 0 with
      | some r =>
        exact find_first_exponential_finds hvalid hb _ mn 0 r le_rfl (Or.inl hmna') he
      | none =>
        exact find_first_linear_finds hvalid hab (by simp only [max_search]; omega)
          (a - mn).toNat mn le_rfl hmna


theorem find_last_common_finds {valid : Int → Bool} {a b mx : Int}
    (hvalid : ∀ m : Int, valid m = true ↔ (a ≤ m ∧ m ≤ b))
    (hmx : b < mx) :
    ∀ (ps : List Int) (r : Int), find_last_common valid mx ps = some r → r = b := by
  intro ps
  induction ps with
  | nil => intro r hr; exact Option.noConfusion hr
  | cons p rest ih =>
    intro r hr
    rw [find_last_common] at hr
    by_cases hcond : p ≤ mx ∧ valid p = true
    · rw [if_pos hcond] at hr
      have hp := (hvalid p).mp hcond.2
      have heq := binary_search_last_go_finds valid b ((mx - 1) + 1 - p).toNat p (mx - 1) p
        le_rfl
        (fun m hma hmb => by rw [hvalid m]; omega)
        (by omega) (by omega)
      simp only [binary_search_last] at hr
      rw [heq] at hr
      injection hr with h
      rw [← h]
    · rw [if_neg hcond] at hr
      exact ih r hr

theorem find_last_exponential_finds {valid : Int → Bool} {a b : Int}
    (hvalid : ∀ m : Int, valid m = true ↔ (a ≤ m ∧ m ≤ b)) (ha1 : 1 ≤ a) :
    ∀ (n : Nat) (current : Int) (k : Nat) (r : Int), current.toNat ≤ n →
      (current < a ∨ b < current) →
      find_last_exponential valid current k = some r → r = b := by
  intro n
  induction n with
  | zero =>
    intro cur k r hn hcur hr
    have h2 : (0:Int) < 2 ^ k := by positivity
    rw [find_last_exponential, dif_neg (by omega)] at hr
    exact Option.noConfusion hr
  | succ n ih =>
    intro cur k r hn hcur hr
    have h2 : (0:Int) < 2 ^ k := by positivity
    rw [find_last_exponential] at hr
    by_cases hg : cur - 2 ^ k > 0
    · rw [dif_pos hg] at hr
      by_cases hv : valid (cur - 2 ^ k) = true
      · rw [if_pos hv] at hr
        have hp := (hvalid _).mp hv
        have hcurb : b < cur := by
          rcases hcur with h | h
          · exfalso; omega
          · exact h
        have heq := binary_search_last_go_finds valid b
          ((cur - 1) + 1 - (cur - 2 ^ k)).toNat (cur - 2 ^ k) (cur - 1) (cur - 2 ^ k) le_rfl
          (fun m hma hmb => by rw [hvalid m]; omega)
          (by omega) (by omega)
        simp only [binary_search_last] at hr
        rw [heq] at hr
        injection hr with h
        rw [← h]
      · rw [if_neg hv] at hr
        rw [hvalid] at hv
        by_cases hbreak : cur - 2 ^ k - 2 ^ (k + 1) ≤ 0
        · rw [if_pos hbreak] at hr
          by_cases hv1 : valid 1 = true
          · rw [if_pos hv1] at hr
            have h1 := (hvalid 1).mp hv1
            have heq := binary_search_last_go_finds valid b
              ((cur - 2 ^ k - 1) + 1 - 1).toNat 1 (cur - 2 ^ k - 1) 1 le_rfl
              (fun m hma hmb => by rw [hvalid m]; omega)
              (by omega) (by omega)
            simp only [binary_search_last] at hr
            rw [heq] at hr
            injection hr with h
            rw [← h]
          · rw [if_neg hv1] at hr
            exact Option.noConfusion hr
        · rw [if_neg hbreak] at hr
          exact ih (cur - 2 ^ k) (k + 1) r (by omega) (by omega) hr
    · rw [dif_neg hg] at hr
      exact Option.noConfusion hr

theorem find_last_linear_finds {valid : Int → Bool} {a b : Int}
    (hvalid : ∀ m : Int, valid m = true ↔ (a ≤ m ∧ m ≤ b))
    (ha1 : 1 ≤ a) (hab : a ≤ b) :
    ∀ (n : Nat) (m : Int), (m - b).toNat ≤ n → b ≤ m →
      find_last_linear valid m = b := by
  intro n
  induction n with
  | zero =>
    intro m hn hmb
    have hmeq : m = b := by omega
    subst hmeq
    rw [find_last_linear, dif_pos (by omega), if_pos ((hvalid m).mpr ⟨hab, le_rfl⟩)]
  | succ n ih =>
    intro m hn hmb
    by_cases hmeq : m = b
    · subst hmeq
      rw [find_last_linear, dif_pos (by omega), if_pos ((hvalid m).mpr ⟨hab, le_rfl⟩)]
    · have hmb' : b < m := by omega
      rw [find_last_linear, dif_pos (by omega), if_neg (by rw [hvalid]; omega)]
      exact ih (m - 1) (by omega) (by omega)

theorem find_last_interval {valid : Int → Bool} {a b mx : Int}
    (hvalid : ∀ m : Int, valid m = true ↔ (a ≤ m ∧ m ≤ b))
    (ha1 : 1 ≤ a) (hab : a ≤ b) (hmxb : b ≤ mx) :
    find_last_valid_month_code valid mx = b := by
  rw [find_last_valid_month_code]
  by_cases hveq : valid mx = true
  · have h1 := (hvalid mx).mp hveq
    rw [if_pos hveq]
    omega
  · rw [if_neg hveq]
    have hmxb' : b < mx := by
      rw [hvalid] at hveq; omega
    cases hc : find_last_common valid mx common_points_last with
    | some r =>
      exact find_last_common_finds hvalid hmxb' _ r hc
    | none =>
      cases he : find_last_exponential valid mx 0 with
      | some r =>
        exact find_last_exponential_finds hvalid ha1 mx.toNat mx 0 r le_rfl (Or.inr hmxb') he
      | none =>
        exact find_last_linear_finds hvalid ha1 hab (mx - b).toNat mx le_rfl (by omega)


/-- C1 (amended: the interval must lie strictly below the `max_search = 100`
ceiling, i.e. `b ≤ 99`): for a predicate valid exactly on `[a, b]`,
`find_first_valid_month_code` returns `a` for every `1 ≤ min_month ≤ a` and
`find_last_valid_month_code` returns `b` for every `max_month ≥ b`. -/
theorem range_discovery_finds_interval_endpoints
    (valid : Int → Bool) (a b : Int)
    (hvalid : ∀ m : Int, valid m = true ↔ (a ≤ m ∧ m ≤ b))
    (ha1 : 1 ≤ a) (hab : a ≤ b) (hb99 : b ≤ 99) :
    (∀ mn : Int, 1 ≤ mn → mn ≤ a → find_first_valid_month_code valid mn = a) ∧
    (∀ mx : Int, b ≤ mx → find_last_valid_month_code valid mx = b) :=
  ⟨fun mn h1 h2 => find_first_interval hvalid ha1 hab hb99 h1 h2,
   fun mx h => find_last_interval hvalid ha1 hab h⟩

/-- Witness for the C1 theorem at the interval `[5, 12]`. -/
theorem range_discovery_finds_interval_endpoints_witness :
    find_first_valid_month_code (IntervalValid 5 12) 1 = 5 ∧
    find_last_valid_month_code (IntervalValid 5 12) 86 = 12 :=
  ⟨(range_discovery_finds_interval_endpoints (IntervalValid 5 12) 5 12
      (fun m => by simp [IntervalValid]) (by norm_num) (by norm_num) (by norm_num)).1
      1 (by norm_num) (by norm_num),
   (range_discovery_finds_interval_endpoints (IntervalValid 5 12) 5 12
      (fun m => by simp [IntervalValid]) (by norm_num) (by norm_num) (by norm_num)).2
      86 (by norm_num)⟩

/-- C1 counterexample: the predicate valid exactly on `[100, 100]` lies
within the search ceiling `max_search = 100`, and `99 ≤ 100` is a legal
`min_month`, yet `find_first_valid_month_code` answers `-1`, not `100`:
the exponential loop guard `current + bound < max_search` fails at once and
the linear fallback stops at `max_search - 1 = 99`. -/
theorem range_discovery_ceiling_counterexample :
    IntervalValid 100 100 100 = true ∧
    find_first_valid_month_code (IntervalValid 100 100) 99 = -1 := by
  constructor
  · decide
  · rw [find_first_valid_month_code]
    norm_num [IntervalValid, common_points_first, max_search, find_first_common]
    rw [find_first_exponential]
    norm_num [max_search]
    rw [find_first_linear]
    norm_num [IntervalValid, max_search]
    rw [find_first_linear]
    norm_num [max_search]


/-- C10: `create_scrape_job` creates the job row with status `'pending'`,
`total_urls = len(urls)`, `completed_urls = 0`, `progress_percentage = 0`,
and exactly one `'pending'` URL row per submitted URL, in order. -/
theorem create_scrape_job_spec (job_name : String) (urls : List String) :
    (create_scrape_job job_name urls).status = JobStatusCode.pending ∧
    (create_scrape_job job_name urls).total_urls = urls.length ∧
    (create_scrape_job job_name urls).completed_urls = 0 ∧
    (create_scrape_job job_name urls).progress_percentage = 0 ∧
    (create_scrape_job job_name urls).job_urls.map JobUrl.url = urls ∧
    (create_scrape_job job_name urls).job_urls.map JobUrl.status
      = urls.map fun _ => UrlStatus.pending := by
  refine ⟨rfl, rfl, rfl, rfl, ?_, ?_⟩
  · rw [create_scrape_job, List.map_map]
    have h : urls.enum.map
        (JobUrl.url ∘ fun p =>
          ({ id := p.1, url := p.2, status := UrlStatus.pending } : JobUrl))
        = urls.enum.map Prod.snd :=
      List.map_congr_left fun p _ => rfl
    rw [h, List.enum_map_snd]
  · rw [create_scrape_job, List.map_map]
    have h : urls.enum.map
        (JobUrl.status ∘ fun p =>
          ({ id := p.1, url := p.2, status := UrlStatus.pending } : JobUrl))
        = urls.enum.map (fun _ => UrlStatus.pending) :=
      List.map_congr_left fun p _ => rfl
    rw [h, List.map_const', List.map_const', List.enum_length]

/-- C2 (amended): at the terminal condition the classification ignores
cancelled rows: the job ends `completed` iff no row failed (even when some
rows were cancelled or none completed), `partial_success` iff at least one
row failed and at least one completed, and `failed` iff at least one row
failed and none completed. -/
theorem final_status_classification (urls : List JobUrl)
    (hip : count_status .inProgress urls = 0)
    (hpend : count_status .pending urls = 0) :
    (final_status urls = .completed ↔ count_status .failed urls = 0) ∧
    (final_status urls = .partialSuccess ↔
      0 < count_status .failed urls ∧ 0 < count_status .completed urls) ∧
    (final_status urls = .failed ↔
      0 < count_status .failed urls ∧ count_status .completed urls = 0) := by
  unfold final_status
  split_ifs with h1 h2 <;> simp_all <;> omega

/-- C2 counterexample: a job with one completed and one cancelled row is
terminal (no pending / in-progress rows) and is classified `completed`,
although not all of its rows completed — the claim demands
`partial_success` here. -/
theorem final_status_cancelled_counterexample :
    count_status .inProgress
        [⟨0, "u0", .completed⟩, ⟨1, "u1", (.cancelled : UrlStatus)⟩] = 0 ∧
    count_status .pending
        [⟨0, "u0", .completed⟩, ⟨1, "u1", (.cancelled : UrlStatus)⟩] = 0 ∧
    count_status .completed
        [⟨0, "u0", .completed⟩, ⟨1, "u1", (.cancelled : UrlStatus)⟩] = 1 ∧
    count_status .cancelled
        [⟨0, "u0", .completed⟩, ⟨1, "u1", (.cancelled : UrlStatus)⟩] = 1 ∧
    final_status [⟨0, "u0", .completed⟩, ⟨1, "u1", (.cancelled : UrlStatus)⟩]
      = .completed := by
  refine ⟨rfl, rfl, rfl, rfl, rfl⟩

/-- Witness for the C2 theorem at a job with one completed and one failed
row. -/
theorem final_status_classification_witness :
    final_status [⟨0, "u0", .completed⟩, ⟨1, "u1", (.failed : UrlStatus)⟩]
      = .partialSuccess :=
  ((final_status_classification
      [⟨0, "u0", .completed⟩, ⟨1, "u1", (.failed : UrlStatus)⟩]
      (by decide) (by decide)).2.1).mpr (by decide)


/-- C3: `cancel_job` succeeds exactly from the non-terminal job statuses
(`'pending'` — the spec's "queued" — or `'in_progress'`); a successful
cancel sets the job to `'cancelled'`, flips exactly the pending /
in-progress URL rows to `'cancelled'` (ids and URLs untouched), and a
second cancel of the resulting job reports `success: False` and changes
nothing. -/
theorem cancel_job_spec (job : ScrapeJob) :
    ((cancel_job job).1 = true ↔
      (job.status = .inProgress ∨ job.status = .pending)) ∧
    ((cancel_job job).1 = false → (cancel_job job).2 = job) ∧
    ((cancel_job job).1 = true →
      (cancel_job job).2.status = .cancelled ∧
      (cancel_job job).2.job_urls.map JobUrl.id = job.job_urls.map JobUrl.id ∧
      (cancel_job job).2.job_urls.map JobUrl.url = job.job_urls.map JobUrl.url ∧
      (cancel_job job).2.job_urls.map JobUrl.status
        = job.job_urls.map (fun u =>
            if u.status = .inProgress ∨ u.status = .pending then .cancelled
            else u.status) ∧
      (cancel_job ((cancel_job job).2)).1 = false ∧
      (cancel_job ((cancel_job job).2)).2 = (cancel_job job).2) := by
  by_cases h : job.status = .inProgress ∨ job.status = .pending
  · rw [cancel_job, if_pos h]
    refine ⟨by simp [h], by simp, fun _ => ⟨rfl, ?_, ?_, ?_, ?_, ?_⟩⟩
    · simp only [List.map_map]
      exact List.map_congr_left fun u _ => by
        by_cases hu : u.status = .inProgress ∨ u.status = .pending <;>
          simp [hu]
    · simp only [List.map_map]
      exact List.map_congr_left fun u _ => by
        by_cases hu : u.status = .inProgress ∨ u.status = .pending <;>
          simp [hu]
    · simp only [List.map_map]
      exact List.map_congr_left fun u _ => by
        by_cases hu : u.status = .inProgress ∨ u.status = .pending <;>
          simp [hu]
    · rw [cancel_job]
      simp
    · rw [cancel_job]
      simp
  · rw [cancel_job, if_neg h]
    exact ⟨by simpa using h, fun _ => rfl, by simp⟩

/-- Witness for the C3 theorem: an in-progress job with one pending and one
completed URL row; the first cancel succeeds, the second reports failure
and leaves the job unchanged. -/
theorem cancel_job_spec_witness :
    (cancel_job ⟨"j", .inProgress, 2, 0, 0,
        [⟨0, "u0", .pending⟩, ⟨1, "u1", .completed⟩]⟩).1 = true ∧
    (cancel_job ⟨"j", .inProgress, 2, 0, 0,
        [⟨0, "u0", .pending⟩, ⟨1, "u1", .completed⟩]⟩).2.status = .cancelled ∧
    (cancel_job ((cancel_job ⟨"j", .inProgress, 2, 0, 0,
        [⟨0, "u0", .pending⟩, ⟨1, "u1", .completed⟩]⟩).2)).1 = false :=
  ⟨(cancel_job_spec _).1.mpr (Or.inl rfl),
   ((cancel_job_spec ⟨"j", .inProgress, 2, 0, 0,
        [⟨0, "u0", .pending⟩, ⟨1, "u1", .completed⟩]⟩).2.2
      ((cancel_job_spec _).1.mpr (Or.inl rfl))).1,
   ((cancel_job_spec ⟨"j", .inProgress, 2, 0, 0,
        [⟨0, "u0", .pending⟩, ⟨1, "u1", .completed⟩]⟩).2.2
      ((cancel_job_spec _).1.mpr (Or.inl rfl))).2.2.2.2.1⟩

/-- C4: `retry_failed_urls` rewrites exactly the rows whose status is
`'failed'` at call time (each ends `'completed'` or `'failed'` again); every
other row — in particular every completed or cancelled row — is returned
identical. -/
theorem retry_failed_urls_spec (succeeds : Nat → Bool) (urls : List JobUrl) :
    List.Forall₂
      (fun u v =>
        (u.status ≠ .failed → v = u) ∧
        (u.status = .failed →
          v = { u with status := if succeeds u.id then .completed else .failed }))
      urls (retry_failed_urls succeeds urls) := by
  rw [retry_failed_urls, List.forall₂_map_right_iff, List.forall₂_same]
  intro u _
  by_cases hu : u.status = .failed
  · simp [hu]
  · simp [hu]

/-- Witness for the C4 theorem on a job with one failed, one completed and
one cancelled row (the retry succeeding on row 0). -/
theorem retry_failed_urls_spec_witness :
    List.Forall₂
      (fun u v =>
        (u.status ≠ .failed → v = u) ∧
        (u.status = .failed →
          v = { u with
                  status := if (fun _ => true) u.id then .completed
                            else .failed }))
      [⟨0, "u0", .failed⟩, ⟨1, "u1", .completed⟩, ⟨2, "u2", .cancelled⟩]
      (retry_failed_urls (fun _ => true)
        [⟨0, "u0", .failed⟩, ⟨1, "u1", .completed⟩, ⟨2, "u2", .cancelled⟩]) :=
  retry_failed_urls_spec (fun _ => true)
    [⟨0, "u0", .failed⟩, ⟨1, "u1", .completed⟩, ⟨2, "u2", .cancelled⟩]


theorem count_status_partition (urls : List JobUrl) :
    count_status .completed urls + count_status .failed urls +
      count_status .cancelled urls + count_status .pending urls +
      count_status .inProgress urls = urls.length := by
  induction urls with
  | nil => rfl
  | cons u rest ih =>
    unfold count_status at ih ⊢
    cases hu : u.status <;> simp [List.filter_cons, hu] <;> omega

/-- C5 (amended): the five status counts always partition the task set, and
the percentage stored by `monitor_job_status` is
`(completed + failed) / total * 100` — failed rows are passed to
`update_job_progress` as part of `completed_urls` — which lies in
`[0, 100]`; it is not `completed / total * 100`. -/
theorem monitor_progress_spec (urls : List JobUrl) :
    count_status .completed urls + count_status .failed urls +
      count_status .cancelled urls + count_status .pending urls +
      count_status .inProgress urls = urls.length ∧
    monitor_progress_percentage urls
      = (if 0 < urls.length then
          ((count_status .completed urls + count_status .failed urls : Nat) : Rat)
            / (urls.length : Rat) * 100
         else 0) ∧
    0 ≤ monitor_progress_percentage urls ∧
    monitor_progress_percentage urls ≤ 100 := by
  have hsum := count_status_partition urls
  refine ⟨hsum, rfl, ?_, ?_⟩
  · unfold monitor_progress_percentage update_job_progress
    split_ifs with h
    · positivity
    · norm_num
  · unfold monitor_progress_percentage update_job_progress
    split_ifs with h
    · have hle : ((count_status .completed urls + count_status .failed urls : Nat) : Rat)
          ≤ (urls.length : Rat) := by
        have hn : count_status .completed urls + count_status .failed urls
            ≤ urls.length := by omega
        exact_mod_cast hn
      have hpos : (0:Rat) < (urls.length : Rat) := by exact_mod_cast h
      calc ((count_status .completed urls + count_status .failed urls : Nat) : Rat)
            / (urls.length : Rat) * 100
          ≤ 1 * 100 := by
            apply mul_le_mul_of_nonneg_right _ (by norm_num)
            exact (div_le_one hpos).mpr hle
        _ = 100 := by norm_num
    · norm_num

/-- C5 counterexample: for a terminal job with one completed and one failed
row, `monitor_job_status` stores 100 percent, while the claimed formula
`completed_task_count / total_task_count * 100` yields 50. -/
theorem monitor_progress_counterexample :
    monitor_progress_percentage
        [⟨0, "u0", .completed⟩, ⟨1, "u1", (.failed : UrlStatus)⟩] = 100 ∧
    ((count_status .completed
        [⟨0, "u0", .completed⟩, ⟨1, "u1", (.failed : UrlStatus)⟩] : Nat) : Rat)
      / (([⟨0, "u0", .completed⟩,
           ⟨1, "u1", (.failed : UrlStatus)⟩] : List JobUrl).length : Rat)
      * 100 = 50 ∧
    (100 : Rat) ≠ 50 := by
  refine ⟨?_, ?_, by norm_num⟩
  · have h : monitor_progress_percentage
        [⟨0, "u0", .completed⟩, ⟨1, "u1", (.failed : UrlStatus)⟩]
        = update_job_progress 2 2 := rfl
    rw [h, update_job_progress]
    norm_num
  · have hc : count_status .completed
        [⟨0, "u0", .completed⟩, ⟨1, "u1", (.failed : UrlStatus)⟩] = 1 := rfl
    rw [hc]
    norm_num


theorem correct_manufacturer_entry_eq (lookup : Int → Option String) (code : Int)
    (url : String) (entry : ManufacturerEntry) :
    correct_manufacturer_entry lookup code url entry
      = { manufacturer_name := get_manufacturer_name lookup code,
          reference := some url } := by
  unfold correct_manufacturer_entry
  split_ifs with h
  · rfl
  · cases entry
    simp_all

/-- C8 (amended): after a successful extraction the scraper itself rewrites
`manufacturer_name` to the name derived from the URL's manufacturer code —
falling back to the literal `"Unknown"` when the code is absent from the
lookup table — and `validate_entry` then always passes, so the task always
proceeds to persist; it never fails validation at this point, not even when
no correction is derivable. -/
theorem validation_after_correction (lookup : Int → Option String) (url : String)
    (code : Int) (entry : ManufacturerEntry)
    (hp1 : mfr_code_scraper url = some code)
    (hp2 : mfr_code_validation url = some code) :
    process_extracted_entry lookup url entry
      = some { manufacturer_name := get_manufacturer_name lookup code,
               reference := some url } ∧
    (∀ name : String, lookup code = some name →
      get_manufacturer_name lookup code = name) ∧
    (lookup code = none → get_manufacturer_name lookup code = "Unknown") := by
  refine ⟨?_, fun name hn => by simp [get_manufacturer_name, hn],
    fun hn => by simp [get_manufacturer_name, hn]⟩
  simp only [process_extracted_entry, hp1, correct_manufacturer_entry_eq,
    validate_entry, hp2]
  cases hl : lookup code with
  | none => rfl
  | some expected =>
    simp [get_manufacturer_name, hl]

/-- Witness for the C8 theorem: a URL of the production shape, a lookup
table containing its manufacturer code, and an extracted record whose name
disagrees; the record is persisted with the corrected name. -/
theorem validation_after_correction_witness :
    process_extracted_entry
        (fun c => if c = 62 then some "SAIC" else none)
        "http://www.myhomeok.com/xiaoliang/changshang/62_5.htm"
        ⟨"Wrong name", none⟩
      = some { manufacturer_name :=
                 get_manufacturer_name
                   (fun c => if c = 62 then some "SAIC" else none) 62,
               reference :=
                 some "http://www.myhomeok.com/xiaoliang/changshang/62_5.htm" } :=
  (validation_after_correction
      (fun c => if c = 62 then some "SAIC" else none)
      "http://www.myhomeok.com/xiaoliang/changshang/62_5.htm"
      62 ⟨"Wrong name", none⟩ (by decide) (by decide)).1

/-- C8 counterexample: when no correct name is derivable from the key (the
code is absent from the lookup), the claim says the task fails validation;
instead the payload's name is overwritten with `"Unknown"` and the task
still persists. -/
theorem validation_unknown_counterexample :
    no_lookup 62 = none ∧
    process_extracted_entry no_lookup
        "http://www.myhomeok.com/xiaoliang/changshang/62_5.htm"
        ⟨"BMW", none⟩
      = some { manufacturer_name := "Unknown",
               reference :=
                 some "http://www.myhomeok.com/xiaoliang/changshang/62_5.htm" } := by
  refine ⟨rfl, ?_⟩
  decide

theorem sched_reachable_invariant (n : Nat) (s : SchedState)
    (h : SchedReachable n s) : s.available + s.running = MAX_CONCURRENT := by
  induction h with
  | refl => rfl
  | tail hr hstep ih =>
    cases hstep with
    | acquire hp ha => simp_all; omega
    | finish hr2 => simp_all; omega

/-- C9: in every reachable state of the `start_job` admission gate at most
`MAX_CONCURRENT = 5` tasks are inside the `async with semaphore` block, and
from a state with 5 running tasks the only possible step is a task
finishing — a further admission must wait. -/
theorem scheduler_concurrency_bound (n : Nat) (s : SchedState)
    (h : SchedReachable n s) :
    s.running ≤ MAX_CONCURRENT ∧
    (s.running = MAX_CONCURRENT →
      ∀ t : SchedState, SchedStep s t → t.running < MAX_CONCURRENT) := by
  have hinv := sched_reachable_invariant n s h
  constructor
  · omega
  · intro hfull t hstep
    cases hstep with
    | acquire hp ha =>
      exfalso
      omega
    | finish hr =>
      simp only []
      omega

/-- Witness for the C9 theorem at the initial state of a three-URL job. -/
theorem scheduler_concurrency_bound_witness :
    (init_sched 3).running ≤ MAX_CONCURRENT :=
  (scheduler_concurrency_bound 3 (init_sched 3) Relation.ReflTransGen.refl).1


theorem probe_inv_init (valid : Int → Bool) : ProbeInv valid init_probe_state := by
  refine ⟨?_, ?_, ?_⟩ <;> simp [init_probe_state]

theorem check_month_sync_run_pure (valid : Int → Bool) (m : Int) (s : ProbeState)
    (h : ProbeInv valid s) :
    ∃ s', check_month_sync_run (pure_probe valid) m s = .ok (valid m, s') ∧
      ProbeInv valid s' := by
  by_cases hc : m ∈ s.cache
  · refine ⟨s, ?_, h⟩
    rw [check_month_sync_run, if_pos hc, h.1 m hc]
  · refine ⟨⟨if valid m then m :: s.cache else s.cache, s.trace ++ [m]⟩, ?_, ?_, ?_, ?_⟩
    · rw [check_month_sync_run, if_neg hc]
      rfl
    · intro k hk
      by_cases hv : valid m = true
      · rw [if_pos hv] at hk
        rcases List.mem_cons.mp hk with hkm | hk2
        · rw [hkm]; exact hv
        · exact h.1 k hk2
      · rw [if_neg hv] at hk
        exact h.1 k hk
    · intro k hkv hk
      rcases List.mem_append.mp hk with hk1 | hk2
      · have := h.2.1 k hkv hk1
        by_cases hv : valid m = true
        · rw [if_pos hv]; exact List.mem_cons_of_mem m this
        · rw [if_neg hv]; exact this
      · have hkm : k = m := by simpa using hk2
        subst hkm
        rw [if_pos hkv]
        exact List.mem_cons_self k _
    · intro k hkv
      rw [List.count_append]
      by_cases hkm : k = m
      · subst hkm
        have hnot : k ∉ s.trace := fun ht => hc (h.2.1 k hkv ht)
        rw [List.count_eq_zero.mpr hnot]
        simp
      · have : List.count k [m] = 0 := by
          simp [List.count_singleton]
          exact fun hh => hkm hh.symm
        rw [this]
        simpa using h.2.2 k hkv


theorem binary_search_first_go_run_pure (valid : Int → Bool) :
    ∀ (n : Nat) (l r fv : Int) (s : ProbeState), (r + 1 - l).toNat ≤ n →
      ProbeInv valid s →
      ∃ s', binary_search_first_go_run (pure_probe valid) l r fv s
          = .ok (binary_search_first_go valid l r fv, s') ∧ ProbeInv valid s' := by
  intro n
  induction n with
  | zero =>
    intro l r fv s hn hinv
    refine ⟨s, ?_, hinv⟩
    rw [binary_search_first_go_run, dif_neg (by omega),
        binary_search_first_go, dif_neg (by omega)]
  | succ n ih =>
    intro l r fv s hn hinv
    by_cases hlr : l ≤ r
    · obtain ⟨s1, hch, hinv1⟩ := check_month_sync_run_pure valid ((l + r) / 2) s hinv
      rw [binary_search_first_go_run, dif_pos hlr, hch,
          binary_search_first_go, dif_pos hlr]
      cases hv : valid ((l + r) / 2) with
      | true =>
        obtain ⟨s', hrec, hinv'⟩ := ih l ((l + r) / 2 - 1) ((l + r) / 2) s1 (by omega) hinv1
        refine ⟨s', ?_, hinv'⟩
        simpa using hrec
      | false =>
        obtain ⟨s', hrec, hinv'⟩ := ih ((l + r) / 2 + 1) r fv s1 (by omega) hinv1
        refine ⟨s', ?_, hinv'⟩
        simpa using hrec
    · refine ⟨s, ?_, hinv⟩
      rw [binary_search_first_go_run, dif_neg hlr, binary_search_first_go, dif_neg hlr]

theorem binary_search_last_go_run_pure (valid : Int → Bool) :
    ∀ (n : Nat) (l r lv : Int) (s : ProbeState), (r + 1 - l).toNat ≤ n →
      ProbeInv valid s →
      ∃ s', binary_search_last_go_run (pure_probe valid) l r lv s
          = .ok (binary_search_last_go valid l r lv, s') ∧ ProbeInv valid s' := by
  intro n
  induction n with
  | zero =>
    intro l r lv s hn hinv
    refine ⟨s, ?_, hinv⟩
    rw [binary_search_last_go_run, dif_neg (by omega),
        binary_search_last_go, dif_neg (by omega)]
  | succ n ih =>
    intro l r lv s hn hinv
    by_cases hlr : l ≤ r
    · obtain ⟨s1, hch, hinv1⟩ := check_month_sync_run_pure valid ((l + r) / 2) s hinv
      rw [binary_search_last_go_run, dif_pos hlr, hch,
          binary_search_last_go, dif_pos hlr]
      cases hv : valid ((l + r) / 2) with
      | true =>
        obtain ⟨s', hrec, hinv'⟩ := ih ((l + r) / 2 + 1) r ((l + r) / 2) s1 (by omega) hinv1
        refine ⟨s', ?_, hinv'⟩
        simpa using hrec
      | false =>
        obtain ⟨s', hrec, hinv'⟩ := ih l ((l + r) / 2 - 1) lv s1 (by omega) hinv1
        refine ⟨s', ?_, hinv'⟩
        simpa using hrec
    · refine ⟨s, ?_, hinv⟩
      rw [binary_search_last_go_run, dif_neg hlr, binary_search_last_go, dif_neg hlr]


theorem find_first_common_run_pure (valid : Int → Bool) (mn : Int) :
    ∀ (ps : List Int) (s : ProbeState), ProbeInv valid s →
      ∃ s', find_first_common_run (pure_probe valid) mn ps s
          = .ok (find_first_common valid mn ps, s') ∧ ProbeInv valid s' := by
  intro ps
  induction ps with
  | nil =>
    intro s hinv
    exact ⟨s, rfl, hinv⟩
  | cons p rest ih =>
    intro s hinv
    rw [find_first_common_run, find_first_common]
    by_cases hb : mn ≤ p ∧ p ≤ max_search
    · rw [if_pos hb]
      obtain ⟨s1, hch, hinv1⟩ := check_month_sync_run_pure valid p s hinv
      rw [hch]
      cases hv : valid p with
      | true =>
        rw [if_pos ⟨hb.1, hb.2, rfl⟩]
        obtain ⟨s', hbs, hinv'⟩ :=
          binary_search_first_go_run_pure valid (p + 1 - mn).toNat mn p p s1 le_rfl hinv1
        refine ⟨s', ?_, hinv'⟩
        simp only [binary_search_first_run, binary_search_first, hbs]
      | false =>
        rw [if_neg (by simp [hv])]
        obtain ⟨s', hrec, hinv'⟩ := ih s1 hinv1
        refine ⟨s', ?_, hinv'⟩
        simpa using hrec
    · rw [if_neg hb, if_neg (by tauto)]
      exact ih s hinv

theorem find_first_exponential_run_pure (valid : Int → Bool) :
    ∀ (n : Nat) (cur : Int) (k : Nat) (s : ProbeState),
      (max_search - cur).toNat ≤ n → ProbeInv valid s →
      ∃ s', find_first_exponential_run (pure_probe valid) cur k s
          = .ok (find_first_exponential valid cur k, s') ∧ ProbeInv valid s' := by
  intro n
  induction n with
  | zero =>
    intro cur k s hn hinv
    have h2 : (0:Int) < 2 ^ k := by positivity
    refine ⟨s, ?_, hinv⟩
    rw [find_first_exponential_run, dif_neg (by simp only [max_search] at *; omega),
        find_first_exponential, dif_neg (by simp only [max_search] at *; omega)]
  | succ n ih =>
    intro cur k s hn hinv
    have h2 : (0:Int) < 2 ^ k := by positivity
    by_cases hg : cur + 2 ^ k < max_search
    · rw [find_first_exponential_run, dif_pos hg, find_first_exponential, dif_pos hg]
      obtain ⟨s1, hch, hinv1⟩ := check_month_sync_run_pure valid (cur + 2 ^ k) s hinv
      rw [hch]
      cases hv : valid (cur + 2 ^ k) with
      | true =>
        obtain ⟨s', hbs, hinv'⟩ :=
          binary_search_first_go_run_pure valid ((cur + 2 ^ k) + 1 - cur).toNat
            cur (cur + 2 ^ k) (cur + 2 ^ k) s1 le_rfl hinv1
        refine ⟨s', ?_, hinv'⟩
        simp [binary_search_first_run, binary_search_first, hbs]
      | false =>
        by_cases hbreak : cur + 2 ^ k + 2 ^ (k + 1) ≥ max_search
        · obtain ⟨s2, hch2, hinv2⟩ := check_month_sync_run_pure valid max_search s1 hinv1
          cases hv2 : valid max_search with
          | true =>
            rw [hv2] at hch2
            obtain ⟨s', hbs, hinv'⟩ :=
              binary_search_first_go_run_pure valid (max_search + 1 - (cur + 2 ^ k)).toNat
                (cur + 2 ^ k) max_search max_search s2 le_rfl hinv2
            refine ⟨s', ?_, hinv'⟩
            simp [hbreak, hch2, binary_search_first_run, binary_search_first, hbs]
          | false =>
            rw [hv2] at hch2
            refine ⟨s2, ?_, hinv2⟩
            simp [hbreak, hch2]
        · obtain ⟨s', hrec, hinv'⟩ :=
            ih (cur + 2 ^ k) (k + 1) s1 (by simp only [max_search] at *; omega) hinv1
          refine ⟨s', ?_, hinv'⟩
          simp [hbreak, hrec]
    · refine ⟨s, ?_, hinv⟩
      rw [find_first_exponential_run, dif_neg hg, find_first_exponential, dif_neg hg]

theorem find_first_linear_run_pure (valid : Int → Bool) :
    ∀ (n : Nat) (m : Int) (s : ProbeState),
      (max_search - m).toNat ≤ n → ProbeInv valid s →
      ∃ s', find_first_linear_run (pure_probe valid) m s
          = .ok (find_first_linear valid m, s') ∧ ProbeInv valid s' := by
  intro n
  induction n with
  | zero =>
    intro m s hn hinv
    refine ⟨s, ?_, hinv⟩
    rw [find_first_linear_run, dif_neg (by simp only [max_search] at *; omega),
        find_first_linear, dif_neg (by simp only [max_search] at *; omega)]
  | succ n ih =>
    intro m s hn hinv
    by_cases hg : m < max_search
    · rw [find_first_linear_run, dif_pos hg, find_first_linear, dif_pos hg]
      obtain ⟨s1, hch, hinv1⟩ := check_month_sync_run_pure valid m s hinv
      rw [hch]
      cases hv : valid m with
      | true => exact ⟨s1, rfl, hinv1⟩
      | false =>
        obtain ⟨s', hrec, hinv'⟩ := ih (m + 1) s1 (by simp only [max_search] at *; omega) hinv1
        refine ⟨s', ?_, hinv'⟩
        simpa using hrec
    · refine ⟨s, ?_, hinv⟩
      rw [find_first_linear_run, dif_neg hg, find_first_linear, dif_neg hg]


theorem find_last_common_run_pure (valid : Int → Bool) (mx : Int) :
    ∀ (ps : List Int) (s : ProbeState), ProbeInv valid s →
      ∃ s', find_last_common_run (pure_probe valid) mx ps s
          = .ok (find_last_common valid mx ps, s') ∧ ProbeInv valid s' := by
  intro ps
  induction ps with
  | nil =>
    intro s hinv
    exact ⟨s, rfl, hinv⟩
  | cons p rest ih =>
    intro s hinv
    rw [find_last_common_run, find_last_common]
    by_cases hb : p ≤ mx
    · rw [if_pos hb]
      obtain ⟨s1, hch, hinv1⟩ := check_month_sync_run_pure valid p s hinv
      rw [hch]
      cases hv : valid p with
      | true =>
        rw [if_pos ⟨hb, rfl⟩]
        obtain ⟨s', hbs, hinv'⟩ :=
          binary_search_last_go_run_pure valid ((mx - 1) + 1 - p).toNat p (mx - 1) p s1
            le_rfl hinv1
        refine ⟨s', ?_, hinv'⟩
        simp [binary_search_last_run, binary_search_last, hbs]
      | false =>
        rw [if_neg (by simp)]
        obtain ⟨s', hrec, hinv'⟩ := ih s1 hinv1
        refine ⟨s', ?_, hinv'⟩
        simpa using hrec
    · rw [if_neg hb, if_neg (by tauto)]
      exact ih s hinv

theorem find_last_exponential_run_pure (valid : Int → Bool) :
    ∀ (n : Nat) (cur : Int) (k : Nat) (s : ProbeState),
      cur.toNat ≤ n → ProbeInv valid s →
      ∃ s', find_last_exponential_run (pure_probe valid) cur k s
          = .ok (find_last_exponential valid cur k, s') ∧ ProbeInv valid s' := by
  intro n
  induction n with
  | zero =>
    intro cur k s hn hinv
    have h2 : (0:Int) < 2 ^ k := by positivity
    refine ⟨s, ?_, hinv⟩
    rw [find_last_exponential_run, dif_neg (by omega),
        find_last_exponential, dif_neg (by omega)]
  | succ n ih =>
    intro cur k s hn hinv
    have h2 : (0:Int) < 2 ^ k := by positivity
    by_cases hg : cur - 2 ^ k > 0
    · rw [find_last_exponential_run, dif_pos hg, find_last_exponential, dif_pos hg]
      obtain ⟨s1, hch, hinv1⟩ := check_month_sync_run_pure valid (cur - 2 ^ k) s hinv
      rw [hch]
      cases hv : valid (cur - 2 ^ k) with
      | true =>
        obtain ⟨s', hbs, hinv'⟩ :=
          binary_search_last_go_run_pure valid ((cur - 1) + 1 - (cur - 2 ^ k)).toNat
            (cur - 2 ^ k) (cur - 1) (cur - 2 ^ k) s1 le_rfl hinv1
        refine ⟨s', ?_, hinv'⟩
        simp [binary_search_last_run, binary_search_last, hbs]
      | false =>
        by_cases hbreak : cur - 2 ^ k - 2 ^ (k + 1) ≤ 0
        · obtain ⟨s2, hch2, hinv2⟩ := check_month_sync_run_pure valid 1 s1 hinv1
          cases hv2 : valid 1 with
          | true =>
            rw [hv2] at hch2
            obtain ⟨s', hbs, hinv'⟩ :=
              binary_search_last_go_run_pure valid ((cur - 2 ^ k - 1) + 1 - 1).toNat
                1 (cur - 2 ^ k - 1) 1 s2 le_rfl hinv2
            refine ⟨s', ?_, hinv'⟩
            simp [hbreak, hch2, binary_search_last_run, binary_search_last, hbs]
          | false =>
            rw [hv2] at hch2
            refine ⟨s2, ?_, hinv2⟩
            simp [hbreak, hch2]
        · obtain ⟨s', hrec, hinv'⟩ := ih (cur - 2 ^ k) (k + 1) s1 (by omega) hinv1
          refine ⟨s', ?_, hinv'⟩
          simp [hbreak, hrec]
    · refine ⟨s, ?_, hinv⟩
      rw [find_last_exponential_run, dif_neg hg, find_last_exponential, dif_neg hg]

theorem find_last_linear_run_pure (valid : Int → Bool) :
    ∀ (n : Nat) (m : Int) (s : ProbeState),
      m.toNat ≤ n → ProbeInv valid s →
      ∃ s', find_last_linear_run (pure_probe valid) m s
          = .ok (find_last_linear valid m, s') ∧ ProbeInv valid s' := by
  intro n
  induction n with
  | zero =>
    intro m s hn hinv
    refine ⟨s, ?_, hinv⟩
    rw [find_last_linear_run, dif_neg (by omega), find_last_linear, dif_neg (by omega)]
  | succ n ih =>
    intro m s hn hinv
    by_cases hg : m > 0
    · rw [find_last_linear_run, dif_pos hg, find_last_linear, dif_pos hg]
      obtain ⟨s1, hch, hinv1⟩ := check_month_sync_run_pure valid m s hinv
      rw [hch]
      cases hv : valid m with
      | true => exact ⟨s1, rfl, hinv1⟩
      | false =>
        obtain ⟨s', hrec, hinv'⟩ := ih (m - 1) s1 (by omega) hinv1
        refine ⟨s', ?_, hinv'⟩
        simpa using hrec
    · refine ⟨s, ?_, hinv⟩
      rw [find_last_linear_run, dif_neg hg, find_last_linear, dif_neg hg]

theorem find_first_valid_month_code_run_pure (valid : Int → Bool) (mn : Int) :
    ∃ s', find_first_valid_month_code_run (pure_probe valid) mn
        = .ok (find_first_valid_month_code valid mn, s') ∧ ProbeInv valid s' := by
  obtain ⟨s1, hch, hinv1⟩ :=
    check_month_sync_run_pure valid (max 1 mn) init_probe_state (probe_inv_init valid)
  rw [find_first_valid_month_code_run, hch, find_first_valid_month_code]
  cases hv : valid (max 1 mn) with
  | true => exact ⟨s1, rfl, hinv1⟩
  | false =>
    obtain ⟨s2, hcom, hinv2⟩ :=
      find_first_common_run_pure valid (max 1 mn) common_points_first s1 hinv1
    cases hc : find_first_common valid (max 1 mn) common_points_first with
    | some r =>
      rw [hc] at hcom
      refine ⟨s2, ?_, hinv2⟩
      simp [hcom]
    | none =>
      rw [hc] at hcom
      obtain ⟨s3, hexp, hinv3⟩ :=
        find_first_exponential_run_pure valid (max_search - max 1 mn).toNat (max 1 mn) 0 s2
          le_rfl hinv2
      cases he : find_first_exponential valid (max 1 mn) 0 with
      | some r =>
        rw [he] at hexp
        refine ⟨s3, ?_, hinv3⟩
        simp [hcom, hexp]
      | none =>
        rw [he] at hexp
        obtain ⟨s4, hlin, hinv4⟩ :=
          find_first_linear_run_pure valid (max_search - max 1 mn).toNat (max 1 mn) s3
            le_rfl hinv3
        refine ⟨s4, ?_, hinv4⟩
        simp [hcom, hexp, hlin]

theorem find_last_valid_month_code_run_pure (valid : Int → Bool) (mx : Int) :
    ∃ s', find_last_valid_month_code_run (pure_probe valid) mx
        = .ok (find_last_valid_month_code valid mx, s') ∧ ProbeInv valid s' := by
  obtain ⟨s1, hch, hinv1⟩ :=
    check_month_sync_run_pure valid mx init_probe_state (probe_inv_init valid)
  rw [find_last_valid_month_code_run, hch, find_last_valid_month_code]
  cases hv : valid mx with
  | true => exact ⟨s1, rfl, hinv1⟩
  | false =>
    obtain ⟨s2, hcom, hinv2⟩ :=
      find_last_common_run_pure valid mx common_points_last s1 hinv1
    cases hc : find_last_common valid mx common_points_last with
    | some r =>
      rw [hc] at hcom
      refine ⟨s2, ?_, hinv2⟩
      simp [hcom]
    | none =>
      rw [hc] at hcom
      obtain ⟨s3, hexp, hinv3⟩ :=
        find_last_exponential_run_pure valid mx.toNat mx 0 s2 le_rfl hinv2
      cases he : find_last_exponential valid mx 0 with
      | some r =>
        rw [he] at hexp
        refine ⟨s3, ?_, hinv3⟩
        simp [hcom, hexp]
      | none =>
        rw [he] at hexp
        obtain ⟨s4, hlin, hinv4⟩ :=
          find_last_linear_run_pure valid mx.toNat mx s3 le_rfl hinv3
        refine ⟨s4, ?_, hinv4⟩
        simp [hcom, hexp, hlin]


/-- C6 (amended): inside one `check_url_sync` call a raising GET is retried
up to the tenacity ceiling of 3 attempts (a later attempt that completes
determines the answer), but when all 3 attempts raise the decorated call
re-raises instead of answering "does not exist"; consequently, under
persistent probe failure `find_first_valid_month_code` and
`find_last_valid_month_code` propagate the exception — they do not return
`NOT_FOUND` (`-1`). -/
theorem persistent_probe_failure_raises (probe : Int → Nat → Option Bool)
    (mn mx : Int) :
    (∀ (m : Int) (s : ProbeState) (b : Bool), m ∉ s.cache →
      probe m 0 = none → probe m 1 = none → probe m 2 = some b →
      check_month_sync_run probe m s
        = .ok (b, ⟨if b then m :: s.cache else s.cache, s.trace ++ [m, m, m]⟩)) ∧
    (∀ (m : Int) (s : ProbeState), m ∉ s.cache →
      probe m 0 = none → probe m 1 = none → probe m 2 = none →
      check_month_sync_run probe m s = .error ()) ∧
    ((∀ (j : Int) (i : Nat), probe j i = none) →
      find_first_valid_month_code_run probe mn = .error () ∧
      find_last_valid_month_code_run probe mx = .error ()) := by
  refine ⟨?_, ?_, ?_⟩
  · intro m s b hm h0 h1 h2
    rw [check_month_sync_run, if_neg hm, h0, h1, h2]
  · intro m s hm h0 h1 h2
    rw [check_month_sync_run, if_neg hm, h0, h1, h2]
  · intro hall
    have hch : ∀ m : Int, check_month_sync_run probe m init_probe_state = .error () := by
      intro m
      rw [check_month_sync_run, if_neg (by simp [init_probe_state]),
          hall m 0, hall m 1, hall m 2]
    constructor
    · rw [find_first_valid_month_code_run, hch]
    · rw [find_last_valid_month_code_run, hch]

/-- Witness for the C6 theorem: the probe that always raises makes both
finders raise. -/
theorem persistent_probe_failure_raises_witness :
    find_first_valid_month_code_run (fun _ _ => none) 1 = .error () ∧
    find_last_valid_month_code_run (fun _ _ => none) 86 = .error () :=
  (persistent_probe_failure_raises (fun _ _ => none) 1 86).2.2 (fun _ _ => rfl)

/-- C6 counterexample: with every probe attempt raising, the claim says
`find_first_valid_month_code(group, 1)` returns `-1`; instead the call
raises (`tenacity.RetryError` escapes the finder). -/
theorem probe_failure_not_found_counterexample :
    find_first_valid_month_code_run (fun _ _ => none) 1 = .error () ∧
    Except.error () ≠ Except.ok ((-1 : Int), init_probe_state) :=
  ⟨rfl, by simp⟩

/-- C7 (amended): during one finder invocation only positive probe answers
are memoized — `check_url_sync` adds a URL to its cache only after a 200
response — so an id confirmed to exist is never probed externally twice,
while an id that answered "does not exist" may be re-probed by a later
phase. -/
theorem positive_probe_memoization (valid : Int → Bool) (mn mx k : Int)
    (hk : valid k = true) :
    (run_trace (find_first_valid_month_code_run (pure_probe valid) mn)).count k ≤ 1 ∧
    (run_trace (find_last_valid_month_code_run (pure_probe valid) mx)).count k ≤ 1 := by
  obtain ⟨s1, h1, hinv1⟩ := find_first_valid_month_code_run_pure valid mn
  obtain ⟨s2, h2, hinv2⟩ := find_last_valid_month_code_run_pure valid mx
  rw [h1, h2]
  exact ⟨hinv1.2.2 k hk, hinv2.2.2 k hk⟩

/-- Witness for the C7 theorem: the only valid id 10 is probed at most once
during each finder run. -/
theorem positive_probe_memoization_witness :
    (run_trace (find_first_valid_month_code_run
        (pure_probe (IntervalValid 10 10)) 1)).count 10 ≤ 1 ∧
    (run_trace (find_last_valid_month_code_run
        (pure_probe (IntervalValid 10 10)) 86)).count 10 ≤ 1 :=
  positive_probe_memoization (IntervalValid 10 10) 1 86 10 (by decide)


/-- C7 counterexample: in the single run
`find_first_valid_month_code(group, 1)` with 10 the only existing id, the
id 1 is probed externally twice — once by the immediate `min_month` check
and again by the checkpoint loop — because its negative answer was not
memoized.  The full probe trace is `[1, 1, 10, 5, 8, 9]`. -/
theorem probe_memoization_counterexample :
    run_trace (find_first_valid_month_code_run (pure_probe (IntervalValid 10 10)) 1)
      = [1, 1, 10, 5, 8, 9] ∧
    List.count 1 [1, 1, 10, 5, 8, 9] = 2 := by
  constructor
  · rw [find_first_valid_month_code_run]
    norm_num [check_month_sync_run, pure_probe, IntervalValid, init_probe_state,
      find_first_common_run, common_points_first, max_search, binary_search_first_run,
      run_trace]
    repeat first
      | rfl
      | (rw [binary_search_first_go_run]
         norm_num [check_month_sync_run, pure_probe, IntervalValid, run_trace])
  · decide

end UWS
